import Mathlib

/-!
cosmos-exporter: the validators scrape handler

A shallow embedding of `ValidatorsHandler` (validators.go) and the properties
of its join-and-derive loop and of its IBC client pass.

Modelling decisions, each tied to the source:

* The handler's observable output is the content of its twelve gauge vectors.
  Every `gauge.With(labels).Set(x)` call is recorded as one `Series`; the
  handler is the list of these calls in program order, and `gaugeValue` reads a
  gauge the way a gauge vector answers: the last value set for the label values.
  `ConstLabels` is the same constant map on every gauge and is left out.
* `float64` is a type parameter `F`; the conversions `float64(n)`, the division
  by `DenomCoefficient` and `strconv.ParseFloat(x.String(), 64)` are the fields
  of `Env`.
* `sort.Slice` belongs to the Go standard library. It is a parameter
  (`SortSlice`) carrying what the library documents: the result is a
  rearrangement of the slice, ordered by the `less` closure; the order of
  elements that compare equal is not promised.
* The six goroutines write to pairwise different gauge vectors and variables,
  and the loop starts after `wg.Wait()`; the embedding takes the six fetch
  results as inputs (`none` for a failed call).
-/

namespace CosmosExporter

/-! ## Data model -/

/-- The twelve gauge vectors registered by the handler (lines 34-154). -/
inductive Gauge where
  | validatorsCommissionGauge
  | validatorsStatusGauge
  | validatorsJailedGauge
  | validatorsTokensGauge
  | validatorsDelegatorSharesGauge
  | validatorsMinSelfDelegationGauge
  | validatorsMissedBlocksGauge
  | validatorsRankGauge
  | validatorsIsActiveGauge
  | ibcChannelsGauge
  | ibcConnectionsGauge
  | ibcClientsGauge
  deriving DecidableEq, Repr

open Gauge

/-- One `gauge.With(labels).Set(value)` call: the gauge, the label values in the
order the gauge declares its label names, and the value. -/
structure Series (F : Type) where
  gauge : Gauge
  labels : List String
  value : F
  deriving DecidableEq, Repr

/-- Staking bond status, an int32 enum: 0 unspecified, 1 unbonded, 2 unbonding,
3 bonded. -/
abbrev BondStatus := Int

def Bonded : BondStatus := 3

/-- The fields of `stakingtypes.Validator` the handler reads. `Rate` and
`DelegatorShares` are `sdk.Dec`, `Tokens` and `MinSelfDelegation` are `sdk.Int`;
both are big integers, compared as integers. `ConsAddr` is the result of
`GetConsAddr()` after `UnpackInterfaces`: `none` when it returns an error,
`some s` when it returns an address whose `String()` is `s`. -/
structure Validator where
  OperatorAddress : String
  Moniker : String
  Jailed : Bool
  Status : BondStatus
  Rate : Int
  Tokens : Int
  DelegatorShares : Int
  MinSelfDelegation : Int
  ConsAddr : Option String
  deriving DecidableEq, Repr

/-- The fields of `slashingtypes.ValidatorSigningInfo` the handler reads. -/
structure ValidatorSigningInfo where
  Address : String
  MissedBlocksCounter : Int
  deriving DecidableEq, Repr

/-- An IBC channel as read by the channel pass (lines 271-277). -/
structure IdentifiedChannel where
  ChannelId : String
  CounterpartyChannelId : String
  State : String
  deriving DecidableEq, Repr

/-- An IBC connection as read by the connection pass (lines 306-314). -/
structure IdentifiedConnection where
  Id : String
  ClientId : String
  CounterpartyClientId : String
  CounterpartyConnectionId : String
  State : String
  deriving DecidableEq, Repr

/-- An IBC client state as read by the client pass (lines 343-361). -/
structure IdentifiedClientState where
  ClientId : String
  deriving DecidableEq, Repr

/-- The float64 operations and the configuration the handler uses.
`parseDec d` is `strconv.ParseFloat(d.String(), 64)` for an `sdk.Dec`,
`parseInt n` the same for an `sdk.Int`; `none` is a parse error. -/
structure Env (F : Type) where
  ofInt : Int → F
  parseDec : Int → Option F
  parseInt : Int → Option F
  div : F → F → F
  Denom : String
  DenomCoefficient : F

/-- The closure handed to `sort.Slice` (line 189):
`validators[i].DelegatorShares.GT(validators[j].DelegatorShares)`. -/
def less (a b : Validator) : Bool := decide (a.DelegatorShares > b.DelegatorShares)

/-- What `sort.Slice(validators, less)` is documented to do: it rearranges the
slice so that no element is `less` than one placed before it. Nothing is
promised about elements that compare equal. -/
structure SortSlice where
  sort : List Validator → List Validator
  perm : ∀ l, (sort l).Perm l
  sorted : ∀ l, (sort l).Pairwise (fun a b => less b a = false)

/-- The results of the six fetch tasks and of the per-client status call;
`none` is a call that returned an error. `params` is `Params.MaxValidators`, a
uint32. -/
structure FetchResults where
  validators : Option (List Validator)
  signingInfos : Option (List ValidatorSigningInfo)
  params : Option Nat
  channels : Option (List IdentifiedChannel)
  connections : Option (List IdentifiedConnection)
  clientStates : Option (List IdentifiedClientState)
  clientStatus : String → Option String

/-! ## The handler -/

/-- The string `pubKey.String()` compared at line 466. After a failed
`GetConsAddr` the variable `pubKey` holds the nil address, whose `String()` is
the empty string. -/
def pubKeyString (validator : Validator) : String :=
  match validator.ConsAddr with
  | some s => s
  | none => ""

/-- The scan of lines 462-471: the first signing info whose `Address` equals the
key, if any (`found` is `isSome`). -/
def findSigningInfo (key : String) :
    List ValidatorSigningInfo → Option ValidatorSigningInfo
  | [] => none
  | signingInfoIterated :: rest =>
    if key = signingInfoIterated.Address then some signingInfoIterated
    else findSigningInfo key rest

/-- Label values `address`, `moniker` of a validator's series. -/
def validatorLabels (validator : Validator) : List String :=
  [validator.OperatorAddress, validator.Moniker]

/-- The pattern `if value, err := strconv.ParseFloat(...); err != nil { log }
else { gauge.With(labels).Set(...) }` of lines 373-384, 405-416, 419-430 and
433-444: nothing is written on a parse error, one series otherwise. -/
def setIfParsed {F : Type} (parsed : Option F) (series : F → Series F) : List (Series F) :=
  match parsed with
  | none => []
  | some value => [series value]

/-- Lines 372-444 of the loop body: commission, status, jailed, tokens,
delegator shares, min self delegation. -/
def decimalAndFlagSeries {F : Type} (env : Env F) (validator : Validator) :
    List (Series F) :=
  setIfParsed (env.parseDec validator.Rate)
    (fun rate => ⟨validatorsCommissionGauge, validatorLabels validator, rate⟩)
  ++ [⟨validatorsStatusGauge, validatorLabels validator, env.ofInt validator.Status⟩]
  ++ [⟨validatorsJailedGauge, validatorLabels validator,
        env.ofInt (if validator.Jailed then 1 else 0)⟩]
  ++ setIfParsed (env.parseInt validator.Tokens)
    (fun value => ⟨validatorsTokensGauge, validatorLabels validator ++ [env.Denom],
      env.div value env.DenomCoefficient⟩)
  ++ setIfParsed (env.parseDec validator.DelegatorShares)
    (fun value => ⟨validatorsDelegatorSharesGauge, validatorLabels validator ++ [env.Denom],
      env.div value env.DenomCoefficient⟩)
  ++ setIfParsed (env.parseInt validator.MinSelfDelegation)
    (fun value => ⟨validatorsMinSelfDelegationGauge,
      validatorLabels validator ++ [env.Denom], env.div value env.DenomCoefficient⟩)

/-- The parse that guards a gauge's `Set` in the loop body (lines 373, 405, 419,
433): `some` of its result for the four decimal gauges, `none` for a gauge that
is set without a parse. -/
def guardingParse {F : Type} (env : Env F) (validator : Validator) :
    Gauge → Option (Option F)
  | validatorsCommissionGauge => some (env.parseDec validator.Rate)
  | validatorsTokensGauge => some (env.parseInt validator.Tokens)
  | validatorsDelegatorSharesGauge => some (env.parseDec validator.DelegatorShares)
  | validatorsMinSelfDelegationGauge => some (env.parseInt validator.MinSelfDelegation)
  | _ => none

/-- Lines 480-510 of the loop body, reached only when a signing info was found:
missed blocks (bonded validators only), rank, active. -/
def signingSeries {F : Type} (env : Env F) (validatorSetLength : Nat) (index : Nat)
    (validator : Validator) (signingInfo : ValidatorSigningInfo) : List (Series F) :=
  (if validator.Status = Bonded then
      [⟨validatorsMissedBlocksGauge, validatorLabels validator,
        env.ofInt signingInfo.MissedBlocksCounter⟩]
    else [])
  ++ [⟨validatorsRankGauge, validatorLabels validator, env.ofInt ((index : Int) + 1)⟩]
  ++ (if validatorSetLength ≠ 0 then
      [⟨validatorsIsActiveGauge, validatorLabels validator,
        env.ofInt (if (index : Int) + 1 ≤ (validatorSetLength : Int) then 1 else 0)⟩]
    else [])

/-- One iteration of the loop of lines 371-511, for the validator at 0-based
position `index` of the sorted slice. `continue` at line 477 ends the iteration
when no signing info was found. -/
def validatorStep {F : Type} (env : Env F) (signingInfos : List ValidatorSigningInfo)
    (validatorSetLength : Nat) (index : Nat) (validator : Validator) : List (Series F) :=
  decimalAndFlagSeries env validator ++
    (match findSigningInfo (pubKeyString validator) signingInfos with
      | none => []
      | some signingInfo => signingSeries env validatorSetLength index validator signingInfo)

/-- The loop of lines 371-511 over the slice `validators`, whose first element
has 0-based position `start`. -/
def validatorsLoop {F : Type} (env : Env F) (signingInfos : List ValidatorSigningInfo)
    (validatorSetLength : Nat) : Nat → List Validator → List (Series F)
  | _, [] => []
  | start, validator :: rest =>
    validatorStep env signingInfos validatorSetLength start validator ++
      validatorsLoop env signingInfos validatorSetLength (start + 1) rest

/-- The channel task (lines 246-278): nothing is written when the call fails,
otherwise one series of value 1 per channel. -/
def channelsTask {F : Type} (env : Env F) (r : FetchResults) : List (Series F) :=
  match r.channels with
  | none => []
  | some channels => channels.map fun channel =>
    ⟨ibcChannelsGauge, [channel.ChannelId, channel.CounterpartyChannelId, channel.State],
      env.ofInt 1⟩

/-- The connection task (lines 281-315): nothing is written when the call
fails, otherwise one series of value 1 per connection. -/
def connectionsTask {F : Type} (env : Env F) (r : FetchResults) : List (Series F) :=
  match r.connections with
  | none => []
  | some connections => connections.map fun connection =>
    ⟨ibcConnectionsGauge, [connection.Id, connection.ClientId,
      connection.CounterpartyClientId, connection.CounterpartyConnectionId,
      connection.State], env.ofInt 1⟩

/-- The loop of the client task (lines 343-361): one status call per client; on
an error the goroutine returns (line 354), which ends the loop. -/
def clientSeries {F : Type} (env : Env F) (clientStatus : String → Option String) :
    List IdentifiedClientState → List (Series F)
  | [] => []
  | client :: rest =>
    match clientStatus client.ClientId with
    | none => []
    | some status =>
      ⟨ibcClientsGauge, [client.ClientId, status], env.ofInt 1⟩ ::
        clientSeries env clientStatus rest

/-- The client task (lines 318-362): nothing is written when the client-list
call fails, otherwise the loop over the client states runs. -/
def clientsTask {F : Type} (env : Env F) (r : FetchResults) : List (Series F) :=
  match r.clientStates with
  | none => []
  | some clients => clientSeries env r.clientStatus clients

/-- The slice the loop ranges over: nil when the validators call failed,
otherwise the response sorted in place by `sort.Slice` (lines 177-190). -/
def sortedValidators (S : SortSlice) (r : FetchResults) : List Validator :=
  match r.validators with
  | none => []
  | some validators => S.sort validators

/-- The slice `signingInfos` after the join: nil when the call failed. -/
def signingInfosOf (r : FetchResults) : List ValidatorSigningInfo :=
  match r.signingInfos with
  | none => []
  | some infos => infos

/-- The variable `validatorSetLength` after the join: 0 when the params call
failed. -/
def validatorSetLengthOf (r : FetchResults) : Nat :=
  match r.params with
  | none => 0
  | some maxValidators => maxValidators

/-- Every gauge write of one request: the three IBC tasks, then the loop over
the sorted validators that follows the join (lines 371-511). The IBC tasks run
concurrently but write to three different gauge vectors, none of which the loop
writes, so the order between them does not change what a gauge holds. -/
def ValidatorsHandler {F : Type} (env : Env F) (S : SortSlice) (r : FetchResults) :
    List (Series F) :=
  channelsTask env r ++ connectionsTask env r ++ clientsTask env r
  ++ validatorsLoop env (signingInfosOf r) (validatorSetLengthOf r) 0 (sortedValidators S r)

/-- The value a gauge vector holds for the given label values after the writes
`es`: the last value set, or `none` when the series was never set. -/
def gaugeValue {F : Type} (es : List (Series F)) (g : Gauge) (labels : List String) :
    Option F :=
  ((es.filter fun e => decide (e.gauge = g ∧ e.labels = labels)).getLast?).map (·.value)

/-! ## Concrete instances used to evaluate the handler -/

/-- An environment over the integers: every parse succeeds, the coefficient is 1. -/
def intEnv : Env Int where
  ofInt := id
  parseDec := fun d => some d
  parseInt := fun n => some n
  div := fun a b => a / b
  Denom := "stake"
  DenomCoefficient := 1

/-- The order `a` before `b` allowed by the `less` closure: `b` is not `less`
than `a`, that is, `a` has at least the delegator shares of `b`. -/
def sharesGE (a b : Validator) : Prop := b.DelegatorShares ≤ a.DelegatorShares

instance : DecidableRel sharesGE := fun a b =>
  inferInstanceAs (Decidable (b.DelegatorShares ≤ a.DelegatorShares))

instance : IsTotal Validator sharesGE := ⟨fun a b => le_total b.DelegatorShares a.DelegatorShares⟩

instance : IsTrans Validator sharesGE := ⟨fun _ _ _ hab hbc => le_trans hbc hab⟩

/-- The stable order: descending delegator shares, ties in fetch order. -/
def stableOrder (l : List Validator) : List Validator := l.insertionSort sharesGE

/-- A `sort.Slice` that keeps ties in fetch order. -/
def stableSortSlice : SortSlice where
  sort := stableOrder
  perm := fun l => List.perm_insertionSort sharesGE l
  sorted := fun l => by
    have h := List.sorted_insertionSort sharesGE l
    exact List.Pairwise.imp (fun {a b} hab => by simpa [less, sharesGE] using hab) h

/-- A bonded validator with 100 delegator shares. -/
def alice : Validator :=
  ⟨"cosmosvaloper1alice", "alice", false, Bonded, 5, 100, 100, 1, some "cosmosvalcons1alice"⟩

/-- A bonded validator with 50 delegator shares. -/
def bob : Validator :=
  ⟨"cosmosvaloper1bob", "bob", false, Bonded, 10, 50, 50, 1, some "cosmosvalcons1bob"⟩

/-- A bonded validator whose `GetConsAddr` returns an error. -/
def carol : Validator :=
  ⟨"cosmosvaloper1carol", "carol", false, Bonded, 10, 70, 70, 1, none⟩

/-- Scenario A: shares 100 and 50, both bonded, missed blocks 3 and 7, max
validators 1; no IBC data. -/
def scenarioA : FetchResults where
  validators := some [alice, bob]
  signingInfos := some [⟨"cosmosvalcons1alice", 3⟩, ⟨"cosmosvalcons1bob", 7⟩]
  params := some 1
  channels := none
  connections := none
  clientStates := none
  clientStatus := fun _ => none

/-- Scenario B: as scenario A with max validators 5, but `bob` has no signing
info. -/
def scenarioB : FetchResults where
  validators := some [alice, bob]
  signingInfos := some [⟨"cosmosvalcons1alice", 3⟩]
  params := some 5
  channels := none
  connections := none
  clientStates := none
  clientStatus := fun _ => none

/-- One validator whose consensus address cannot be derived, and a signing info
whose address is the empty string. -/
def scenarioNoConsAddr : FetchResults where
  validators := some [carol]
  signingInfos := some [⟨"", 9⟩]
  params := some 5
  channels := none
  connections := none
  clientStates := none
  clientStatus := fun _ => none

/-- Scenario D: two IBC clients; the status call fails for the first one and
answers `Active` for the second. -/
def scenarioD : FetchResults where
  validators := none
  signingInfos := none
  params := none
  channels := none
  connections := none
  clientStates := some [⟨"07-tendermint-0"⟩, ⟨"07-tendermint-1"⟩]
  clientStatus := fun id => if id = "07-tendermint-1" then some "Active" else none

/-- An environment over the integers in which no `sdk.Dec` parses. -/
def failingDecEnv : Env Int where
  ofInt := id
  parseDec := fun _ => none
  parseInt := fun n => some n
  div := fun a b => a / b
  Denom := "stake"
  DenomCoefficient := 1

/-! ## The signing-info scan -/

theorem findSigningInfo_isSome_iff (key : String) (infos : List ValidatorSigningInfo) :
    (findSigningInfo key infos).isSome ↔ ∃ s ∈ infos, s.Address = key := by
  induction infos with
  | nil => simp [findSigningInfo]
  | cons t rest ih =>
    by_cases h : key = t.Address
    · simp [findSigningInfo, h]
    · have h' : ¬ t.Address = key := fun e => h e.symm
      simp [findSigningInfo, h, h', ih]

theorem findSigningInfo_some_split (key : String) (infos : List ValidatorSigningInfo)
    (s : ValidatorSigningInfo) (h : findSigningInfo key infos = some s) :
    ∃ pre post, infos = pre ++ s :: post ∧ s.Address = key ∧ ∀ t ∈ pre, t.Address ≠ key := by
  induction infos with
  | nil => simp [findSigningInfo] at h
  | cons t rest ih =>
    by_cases hk : key = t.Address
    · simp [findSigningInfo, hk] at h
      subst h
      exact ⟨[], rest, rfl, hk.symm, by simp⟩
    · simp only [findSigningInfo, hk, if_false] at h
      obtain ⟨pre, post, hsplit, hs, hpre⟩ := ih h
      refine ⟨t :: pre, post, by simp [hsplit], hs, ?_⟩
      intro u hu
      rcases List.mem_cons.1 hu with rfl | hu
      · exact fun e => hk e.symm
      · exact hpre u hu

theorem mem_setIfParsed {F : Type} (parsed : Option F) (series : F → Series F)
    (e : Series F) :
    e ∈ setIfParsed parsed series ↔ ∃ x, parsed = some x ∧ e = series x := by
  cases parsed <;> simp [setIfParsed]

theorem labels_of_mem_validatorStep {F : Type} (env : Env F)
    (signingInfos : List ValidatorSigningInfo) (n index : Nat) (validator : Validator)
    (e : Series F) (he : e ∈ validatorStep env signingInfos n index validator) :
    e.labels.take 2 = validatorLabels validator := by
  simp only [validatorStep, decimalAndFlagSeries, signingSeries, List.mem_append,
    mem_setIfParsed] at he
  rcases he with (((((⟨_, _, rfl⟩ | he) | he) | ⟨_, _, rfl⟩) | ⟨_, _, rfl⟩) |
    ⟨_, _, rfl⟩) | he
  · simp [validatorLabels]
  · simp at he; subst he; simp [validatorLabels]
  · simp at he; subst he; simp [validatorLabels]
  · simp [validatorLabels]
  · simp [validatorLabels]
  · simp [validatorLabels]
  · split at he
    · simp at he
    · simp only [List.mem_append] at he
      rcases he with (he | he) | he
      · split at he <;> simp at he; subst he; simp [validatorLabels]
      · simp at he; subst he; simp [validatorLabels]
      · split at he <;> simp at he; subst he; simp [validatorLabels]

theorem filter_validatorStep_other {F : Type} (env : Env F)
    (signingInfos : List ValidatorSigningInfo) (n index : Nat) (validator : Validator)
    (g : Gauge) (labels : List String) (h : labels.take 2 ≠ validatorLabels validator) :
    (validatorStep env signingInfos n index validator).filter
      (fun e => decide (e.gauge = g ∧ e.labels = labels)) = [] := by
  rw [List.filter_eq_nil_iff]
  intro e he
  have hl := labels_of_mem_validatorStep env signingInfos n index validator e he
  simp only [decide_eq_true_eq, not_and]
  intro _ hlab
  exact h (by rw [← hlab, hl])

theorem filter_validatorsLoop {F : Type} (env : Env F)
    (signingInfos : List ValidatorSigningInfo) (n : Nat) (g : Gauge) (labels : List String)
    (vs : List Validator) :
    ∀ (start i : Nat) (v : Validator), (vs.map validatorLabels).Nodup → vs[i]? = some v →
      labels.take 2 = validatorLabels v →
      (validatorsLoop env signingInfos n start vs).filter
        (fun e => decide (e.gauge = g ∧ e.labels = labels)) =
      (validatorStep env signingInfos n (start + i) v).filter
        (fun e => decide (e.gauge = g ∧ e.labels = labels)) := by
  induction vs with
  | nil => intro start i v _ h; simp at h
  | cons w rest ih =>
    intro start i v hnd hi hl
    rw [List.map_cons, List.nodup_cons] at hnd
    cases i with
    | zero =>
      simp only [List.getElem?_cons_zero, Option.some.injEq] at hi
      subst hi
      simp only [validatorsLoop, List.filter_append, Nat.add_zero]
      have hrest : (validatorsLoop env signingInfos n (start + 1) rest).filter
          (fun e => decide (e.gauge = g ∧ e.labels = labels)) = [] := by
        clear ih
        have hnot : ∀ u ∈ rest, labels.take 2 ≠ validatorLabels u := by
          intro u hu e
          exact hnd.1 (by rw [← hl, e]; exact List.mem_map_of_mem _ hu)
        clear hnd
        induction rest generalizing start with
        | nil => simp [validatorsLoop]
        | cons u rest2 ih2 =>
          simp only [validatorsLoop, List.filter_append]
          rw [filter_validatorStep_other env signingInfos n _ u g labels (hnot u (by simp)),
            ih2 (start + 1) (fun x hx => hnot x (by simp [hx]))]
          rfl
      rw [hrest, List.append_nil]
    | succ j =>
      simp only [List.getElem?_cons_succ] at hi
      have hne : labels.take 2 ≠ validatorLabels w := by
        intro e
        apply hnd.1
        rw [← e, hl]
        exact List.mem_map_of_mem _ (List.getElem?_mem hi)
      simp only [validatorsLoop, List.filter_append]
      rw [filter_validatorStep_other env signingInfos n start w g labels hne,
        ih (start + 1) j v hnd.2 hi hl, List.nil_append]
      congr 2
      omega

theorem gauge_of_mem_clientSeries {F : Type} (env : Env F)
    (clientStatus : String → Option String) (clients : List IdentifiedClientState)
    (e : Series F) (he : e ∈ clientSeries env clientStatus clients) :
    e.gauge = ibcClientsGauge := by
  induction clients with
  | nil => simp [clientSeries] at he
  | cons c cs ih =>
    simp only [clientSeries] at he
    split at he
    · simp at he
    · rcases List.mem_cons.1 he with rfl | h
      · rfl
      · exact ih h

theorem filter_ibc_tasks {F : Type} (env : Env F) (r : FetchResults) (g : Gauge)
    (labels : List String)
    (hg : g ≠ ibcChannelsGauge ∧ g ≠ ibcConnectionsGauge ∧ g ≠ ibcClientsGauge) :
    (channelsTask env r ++ connectionsTask env r ++ clientsTask env r).filter
        (fun e => decide (e.gauge = g ∧ e.labels = labels)) = [] := by
  rw [List.filter_eq_nil_iff]
  intro e he
  have hgauge : e.gauge = ibcChannelsGauge ∨ e.gauge = ibcConnectionsGauge ∨
      e.gauge = ibcClientsGauge := by
    simp only [List.mem_append] at he
    rcases he with (he | he) | he
    · left
      unfold channelsTask at he
      split at he
      · simp at he
      · simp only [List.mem_map] at he
        obtain ⟨_, _, rfl⟩ := he
        rfl
    · right; left
      unfold connectionsTask at he
      split at he
      · simp at he
      · simp only [List.mem_map] at he
        obtain ⟨_, _, rfl⟩ := he
        rfl
    · right; right
      unfold clientsTask at he
      split at he
      · simp at he
      · exact gauge_of_mem_clientSeries env _ _ e he
  simp only [decide_eq_true_eq, not_and]
  intro hge
  rw [hge] at hgauge
  rcases hgauge with h | h | h
  · exact absurd h hg.1
  · exact absurd h hg.2.1
  · exact absurd h hg.2.2

theorem gaugeValue_handler {F : Type} (env : Env F) (S : SortSlice) (r : FetchResults)
    (g : Gauge) (labels : List String) (i : Nat) (v : Validator)
    (hg : g ≠ ibcChannelsGauge ∧ g ≠ ibcConnectionsGauge ∧ g ≠ ibcClientsGauge)
    (hnd : ((sortedValidators S r).map validatorLabels).Nodup)
    (hi : (sortedValidators S r)[i]? = some v)
    (hl : labels.take 2 = validatorLabels v) :
    gaugeValue (ValidatorsHandler env S r) g labels =
      gaugeValue (validatorStep env (signingInfosOf r) (validatorSetLengthOf r) i v) g labels := by
  unfold gaugeValue ValidatorsHandler
  rw [List.filter_append, filter_ibc_tasks env r g labels hg, List.nil_append,
    filter_validatorsLoop env _ _ g labels _ 0 i v hnd hi hl, Nat.zero_add]

/-! ## What one iteration writes to the signing gauges -/

theorem filter_decimalAndFlagSeries_signing_gauges {F : Type} (env : Env F) (v : Validator)
    (g : Gauge) (labels : List String)
    (hg : g = validatorsMissedBlocksGauge ∨ g = validatorsRankGauge ∨
      g = validatorsIsActiveGauge) :
    (decimalAndFlagSeries env v).filter
      (fun e => decide (e.gauge = g ∧ e.labels = labels)) = [] := by
  rw [List.filter_eq_nil_iff]
  intro e he
  simp only [decimalAndFlagSeries, List.mem_append, mem_setIfParsed] at he
  simp only [decide_eq_true_eq, not_and]
  intro hge
  rcases he with ((((⟨_, _, rfl⟩ | he) | he) | ⟨_, _, rfl⟩) | ⟨_, _, rfl⟩) | ⟨_, _, rfl⟩
  · rcases hg with h | h | h <;> simp [h] at hge
  · simp at he; subst he; rcases hg with h | h | h <;> simp [h] at hge
  · simp at he; subst he; rcases hg with h | h | h <;> simp [h] at hge
  · rcases hg with h | h | h <;> simp [h] at hge
  · rcases hg with h | h | h <;> simp [h] at hge
  · rcases hg with h | h | h <;> simp [h] at hge

theorem gaugeValue_step_rank {F : Type} (env : Env F) (si : List ValidatorSigningInfo)
    (n i : Nat) (v : Validator) :
    gaugeValue (validatorStep env si n i v) validatorsRankGauge (validatorLabels v) =
      (findSigningInfo (pubKeyString v) si).map (fun _ => env.ofInt ((i : Int) + 1)) := by
  unfold gaugeValue validatorStep
  rw [List.filter_append, filter_decimalAndFlagSeries_signing_gauges env v _ _ (by simp)]
  cases findSigningInfo (pubKeyString v) si with
  | none => simp
  | some s =>
    by_cases hb : v.Status = Bonded <;> by_cases hn : n = 0 <;>
      simp [signingSeries, hb, hn, List.filter_cons]

theorem gaugeValue_step_active {F : Type} (env : Env F) (si : List ValidatorSigningInfo)
    (n i : Nat) (v : Validator) :
    gaugeValue (validatorStep env si n i v) validatorsIsActiveGauge (validatorLabels v) =
      (findSigningInfo (pubKeyString v) si).bind (fun _ =>
        if n ≠ 0 then some (env.ofInt (if (i : Int) + 1 ≤ (n : Int) then 1 else 0)) else none) := by
  unfold gaugeValue validatorStep
  rw [List.filter_append, filter_decimalAndFlagSeries_signing_gauges env v _ _ (by simp)]
  cases findSigningInfo (pubKeyString v) si with
  | none => simp
  | some s =>
    by_cases hb : v.Status = Bonded <;> by_cases hn : n = 0 <;>
      simp [signingSeries, hb, hn, List.filter_cons]

theorem gaugeValue_step_missed {F : Type} (env : Env F) (si : List ValidatorSigningInfo)
    (n i : Nat) (v : Validator) :
    gaugeValue (validatorStep env si n i v) validatorsMissedBlocksGauge (validatorLabels v) =
      (findSigningInfo (pubKeyString v) si).bind (fun s =>
        if v.Status = Bonded then some (env.ofInt s.MissedBlocksCounter) else none) := by
  unfold gaugeValue validatorStep
  rw [List.filter_append, filter_decimalAndFlagSeries_signing_gauges env v _ _ (by simp)]
  cases findSigningInfo (pubKeyString v) si with
  | none => simp
  | some s =>
    by_cases hb : v.Status = Bonded <;> by_cases hn : n = 0 <;>
      simp [signingSeries, hb, hn, List.filter_cons]

theorem nodup_labels_sortedValidators (S : SortSlice) (r : FetchResults) (vs : List Validator)
    (hv : r.validators = some vs) (hnd : (vs.map validatorLabels).Nodup) :
    ((sortedValidators S r).map validatorLabels).Nodup := by
  unfold sortedValidators
  rw [hv]
  exact ((S.perm vs).map validatorLabels).nodup_iff.2 hnd

/-! ## The order produced by sort.Slice -/

theorem mem_validatorStep_iff {F : Type} (env : Env F) (si : List ValidatorSigningInfo)
    (n i : Nat) (v : Validator) (e : Series F) :
    e ∈ validatorStep env si n i v ↔
      e ∈ decimalAndFlagSeries env v ∨
      ∃ s, findSigningInfo (pubKeyString v) si = some s ∧ e ∈ signingSeries env n i v s := by
  unfold validatorStep
  cases findSigningInfo (pubKeyString v) si with
  | none => simp
  | some s => simp

theorem mem_decimalAndFlagSeries_iff {F : Type} (env : Env F) (v : Validator) (e : Series F) :
    e ∈ decimalAndFlagSeries env v ↔
      (∃ rate, env.parseDec v.Rate = some rate ∧
        e = ⟨validatorsCommissionGauge, validatorLabels v, rate⟩) ∨
      e = ⟨validatorsStatusGauge, validatorLabels v, env.ofInt v.Status⟩ ∨
      e = ⟨validatorsJailedGauge, validatorLabels v, env.ofInt (if v.Jailed then 1 else 0)⟩ ∨
      (∃ value, env.parseInt v.Tokens = some value ∧
        e = ⟨validatorsTokensGauge, validatorLabels v ++ [env.Denom],
          env.div value env.DenomCoefficient⟩) ∨
      (∃ value, env.parseDec v.DelegatorShares = some value ∧
        e = ⟨validatorsDelegatorSharesGauge, validatorLabels v ++ [env.Denom],
          env.div value env.DenomCoefficient⟩) ∨
      (∃ value, env.parseInt v.MinSelfDelegation = some value ∧
        e = ⟨validatorsMinSelfDelegationGauge, validatorLabels v ++ [env.Denom],
          env.div value env.DenomCoefficient⟩) := by
  simp only [decimalAndFlagSeries, List.mem_append, mem_setIfParsed, List.mem_singleton,
    or_assoc]

theorem mem_signingSeries_iff {F : Type} (env : Env F) (n i : Nat) (v : Validator)
    (s : ValidatorSigningInfo) (e : Series F) :
    e ∈ signingSeries env n i v s ↔
      (v.Status = Bonded ∧
        e = ⟨validatorsMissedBlocksGauge, validatorLabels v,
          env.ofInt s.MissedBlocksCounter⟩) ∨
      e = ⟨validatorsRankGauge, validatorLabels v, env.ofInt ((i : Int) + 1)⟩ ∨
      (n ≠ 0 ∧
        e = ⟨validatorsIsActiveGauge, validatorLabels v,
          env.ofInt (if (i : Int) + 1 ≤ (n : Int) then 1 else 0)⟩) := by
  unfold signingSeries
  by_cases hb : v.Status = Bonded <;> by_cases hn : n = 0 <;> simp [hb, hn, or_assoc]

theorem mem_validatorsLoop_iff {F : Type} (env : Env F) (si : List ValidatorSigningInfo)
    (n : Nat) (e : Series F) (vs : List Validator) :
    ∀ start, e ∈ validatorsLoop env si n start vs ↔
      ∃ i v, vs[i]? = some v ∧ e ∈ validatorStep env si n (start + i) v := by
  induction vs with
  | nil => intro start; simp [validatorsLoop]
  | cons w rest ih =>
    intro start
    simp only [validatorsLoop, List.mem_append, ih]
    constructor
    · rintro (h | ⟨i, v, hi, he⟩)
      · exact ⟨0, w, by simp, by simpa using h⟩
      · exact ⟨i + 1, v, by simpa using hi, by
          have : start + (i + 1) = start + 1 + i := by omega
          rw [this]; exact he⟩
    · rintro ⟨i, v, hi, he⟩
      cases i with
      | zero =>
        simp only [List.getElem?_cons_zero, Option.some.injEq] at hi
        subst hi
        left; simpa using he
      | succ j =>
        right
        refine ⟨j, v, by simpa using hi, ?_⟩
        have : start + (j + 1) = start + 1 + j := by omega
        rw [this] at he; exact he

theorem mem_handler_validator_gauge {F : Type} (env : Env F) (S : SortSlice) (r : FetchResults)
    (e : Series F)
    (hg : e.gauge ≠ ibcChannelsGauge ∧ e.gauge ≠ ibcConnectionsGauge ∧
      e.gauge ≠ ibcClientsGauge) :
    e ∈ ValidatorsHandler env S r ↔
      ∃ i v, (sortedValidators S r)[i]? = some v ∧
        e ∈ validatorStep env (signingInfosOf r) (validatorSetLengthOf r) i v := by
  have hibc : e ∉ channelsTask env r ++ connectionsTask env r ++ clientsTask env r := by
    intro he
    have h := filter_ibc_tasks env r e.gauge e.labels hg
    rw [List.filter_eq_nil_iff] at h
    exact h e he (by simp)
  unfold ValidatorsHandler
  rw [List.mem_append, mem_validatorsLoop_iff]
  simp only [Nat.zero_add]
  constructor
  · rintro (h | h)
    · exact absurd h hibc
    · exact h
  · exact fun h => Or.inr h

/-! ## C1: the rank series -/

/-- C2, counterexample: in scenario B the staking params were fetched with max
validators 5 and `bob` is processed at sorted position 2 (his status series is
written), yet no active series is written for him, because he has no signing
info. -/
theorem active_absent_without_signing_info :
    scenarioB.params = some 5 ∧
    ([alice, bob].map validatorLabels).Nodup ∧
    (sortedValidators stableSortSlice scenarioB)[1]? = some bob ∧
    gaugeValue (ValidatorsHandler intEnv stableSortSlice scenarioB)
      validatorsStatusGauge (validatorLabels bob) = some 3 ∧
    gaugeValue (ValidatorsHandler intEnv stableSortSlice scenarioB)
      validatorsIsActiveGauge (validatorLabels bob) = none := by
  decide

/-- C2, amended: for the validator at 0-based sorted position `i` (labels
pairwise distinct), the active series is written if and only if the staking
params were fetched with max validators greater than 0 and some signing info has
the validator's consensus-address string; when written its value is 1 if
`i + 1` is at most max validators and 0 otherwise. -/
theorem active_series_iff {F : Type} (env : Env F) (S : SortSlice) (r : FetchResults)
    (i : Nat) (v : Validator)
    (hnd : ((sortedValidators S r).map validatorLabels).Nodup)
    (hi : (sortedValidators S r)[i]? = some v) :
    ((gaugeValue (ValidatorsHandler env S r) validatorsIsActiveGauge
        (validatorLabels v)).isSome ↔
      (∃ m, r.params = some m ∧ 0 < m) ∧
        ∃ s ∈ signingInfosOf r, s.Address = pubKeyString v) ∧
    (∀ m x, r.params = some m →
      gaugeValue (ValidatorsHandler env S r) validatorsIsActiveGauge (validatorLabels v) =
        some x →
      x = env.ofInt (if (i : Int) + 1 ≤ (m : Int) then 1 else 0)) := by
  rw [gaugeValue_handler env S r _ _ i v (by simp) hnd hi (by simp [validatorLabels]),
    gaugeValue_step_active]
  have hlen : validatorSetLengthOf r ≠ 0 ↔ ∃ m, r.params = some m ∧ 0 < m := by
    unfold validatorSetLengthOf
    cases r.params with
    | none => simp
    | some m => simp [Nat.pos_iff_ne_zero]
  constructor
  · rw [← hlen, ← findSigningInfo_isSome_iff]
    cases findSigningInfo (pubKeyString v) (signingInfosOf r) with
    | none => simp
    | some s =>
      by_cases hn : validatorSetLengthOf r = 0 <;> simp [hn]
  · intro m x hm hx
    have hm' : validatorSetLengthOf r = m := by simp [validatorSetLengthOf, hm]
    rw [hm'] at hx
    cases hf : findSigningInfo (pubKeyString v) (signingInfosOf r) with
    | none => simp [hf] at hx
    | some s =>
      by_cases hn : m = 0
      · simp [hf, hn] at hx
      · simp only [hf, Option.some_bind, ne_eq, hn, not_false_eq_true, if_true,
          Option.some.injEq] at hx
        exact hx.symm

/-- C2, witness: scenario A, `bob` at sorted position 2 with max validators 1:
the active series is written with value 0. -/
theorem active_series_iff_witness :
    ((sortedValidators stableSortSlice scenarioA).map validatorLabels).Nodup ∧
    (sortedValidators stableSortSlice scenarioA)[1]? = some bob ∧
    gaugeValue (ValidatorsHandler intEnv stableSortSlice scenarioA)
      validatorsIsActiveGauge (validatorLabels bob) = some 0 ∧
    ((gaugeValue (ValidatorsHandler intEnv stableSortSlice scenarioA)
        validatorsIsActiveGauge (validatorLabels bob)).isSome ↔
      (∃ m, scenarioA.params = some m ∧ 0 < m) ∧
        ∃ s ∈ signingInfosOf scenarioA, s.Address = pubKeyString bob) :=
  ⟨by decide, by decide, by decide,
    (active_series_iff intEnv stableSortSlice scenarioA 1 bob (by decide) (by decide)).1⟩

/-! ## C3: the missed-blocks series -/

/-- C4, the code at the failing input: in scenario D the status call fails for
the first client and answers for the second, and the handler writes no series
at all; the second client, whose lookup would succeed, has no presence series. -/
theorem client_after_failed_lookup_not_written :
    scenarioD.clientStates = some [⟨"07-tendermint-0"⟩, ⟨"07-tendermint-1"⟩] ∧
    scenarioD.clientStatus "07-tendermint-0" = none ∧
    scenarioD.clientStatus "07-tendermint-1" = some "Active" ∧
    ValidatorsHandler intEnv stableSortSlice scenarioD = [] ∧
    gaugeValue (ValidatorsHandler intEnv stableSortSlice scenarioD) ibcClientsGauge
      ["07-tendermint-1", "Active"] = none := by
  decide

/-- C5, the code at the failing input: `carol` is bonded and her consensus
address cannot be derived; with a signing info whose address is the empty
string the handler writes her missed-blocks series, with that record's
counter. -/
theorem missed_blocks_written_after_failed_cons_addr :
    carol.ConsAddr = none ∧
    scenarioNoConsAddr.signingInfos = some [⟨"", 9⟩] ∧
    sortedValidators stableSortSlice scenarioNoConsAddr = [carol] ∧
    gaugeValue (ValidatorsHandler intEnv stableSortSlice scenarioNoConsAddr)
      validatorsMissedBlocksGauge (validatorLabels carol) = some 9 := by
  decide

/-- C7: when every fetched validator is bonded and has a derivable consensus
address carried by some signing info, and the staking params were fetched with
max validators `m > 0`, the iteration for the validator `v` at 0-based sorted
position `i` writes, after the decimal and flag series, exactly missed blocks
(the counter of the first signing info with its address), rank `i + 1` and
active (1 if `i + 1 ≤ m`, else 0); with pairwise distinct labels these are the
values the three gauges hold for `v`. -/
theorem all_bonded_matched_series {F : Type} (env : Env F) (S : SortSlice)
    (r : FetchResults) (vs : List Validator) (m i : Nat) (v : Validator)
    (hv : r.validators = some vs)
    (hall : ∀ w ∈ vs, w.Status = Bonded ∧
      ∃ a, w.ConsAddr = some a ∧ ∃ s ∈ signingInfosOf r, s.Address = a)
    (hp : r.params = some m) (hm : 0 < m)
    (hi : (sortedValidators S r)[i]? = some v) :
    ∃ s, s ∈ signingInfosOf r ∧ v.ConsAddr = some s.Address ∧
      findSigningInfo s.Address (signingInfosOf r) = some s ∧
      validatorStep env (signingInfosOf r) (validatorSetLengthOf r) i v =
        decimalAndFlagSeries env v ++
          [⟨validatorsMissedBlocksGauge, validatorLabels v,
              env.ofInt s.MissedBlocksCounter⟩,
            ⟨validatorsRankGauge, validatorLabels v, env.ofInt ((i : Int) + 1)⟩,
            ⟨validatorsIsActiveGauge, validatorLabels v,
              env.ofInt (if (i : Int) + 1 ≤ (m : Int) then 1 else 0)⟩] ∧
      ((vs.map validatorLabels).Nodup →
        gaugeValue (ValidatorsHandler env S r) validatorsRankGauge (validatorLabels v) =
          some (env.ofInt ((i : Int) + 1)) ∧
        gaugeValue (ValidatorsHandler env S r) validatorsMissedBlocksGauge
          (validatorLabels v) = some (env.ofInt s.MissedBlocksCounter) ∧
        gaugeValue (ValidatorsHandler env S r) validatorsIsActiveGauge (validatorLabels v) =
          some (env.ofInt (if (i : Int) + 1 ≤ (m : Int) then 1 else 0))) := by
  have hsorted : sortedValidators S r = S.sort vs := by simp [sortedValidators, hv]
  have hmem : v ∈ vs := by
    have h := List.getElem?_mem hi
    rw [hsorted] at h
    exact (S.perm vs).mem_iff.1 h
  obtain ⟨hb, a, ha, t, ht, hta⟩ := hall v hmem
  have hkey : pubKeyString v = a := by simp [pubKeyString, ha]
  have hsome : (findSigningInfo a (signingInfosOf r)).isSome :=
    (findSigningInfo_isSome_iff a (signingInfosOf r)).2 ⟨t, ht, hta⟩
  obtain ⟨s, hs⟩ := Option.isSome_iff_exists.1 hsome
  obtain ⟨pre, post, hsplit, hsa, _⟩ := findSigningInfo_some_split a _ s hs
  have hlen : validatorSetLengthOf r = m := by simp [validatorSetLengthOf, hp]
  have hm0 : m ≠ 0 := Nat.pos_iff_ne_zero.1 hm
  refine ⟨s, ?_, ?_, ?_, ?_, ?_⟩
  · rw [hsplit]; simp
  · rw [ha, hsa]
  · rw [hsa]; exact hs
  · unfold validatorStep
    rw [hkey, hs, hlen]
    simp [signingSeries, hb, hm0]
  · intro hnd
    have hnd' := nodup_labels_sortedValidators S r vs hv hnd
    refine ⟨?_, ?_, ?_⟩
    · rw [gaugeValue_handler env S r _ _ i v (by simp) hnd' hi (by simp [validatorLabels]),
        gaugeValue_step_rank, hkey, hs]
      rfl
    · rw [gaugeValue_handler env S r _ _ i v (by simp) hnd' hi (by simp [validatorLabels]),
        gaugeValue_step_missed, hkey, hs]
      simp [hb]
    · rw [gaugeValue_handler env S r _ _ i v (by simp) hnd' hi (by simp [validatorLabels]),
        gaugeValue_step_active, hkey, hs, hlen]
      simp [hm0]

/-- C7, witness (scenario A): shares 100 and 50, both bonded, missed blocks 3
and 7, max validators 1: `alice` gets rank 1, missed 3, active 1 and `bob` gets
rank 2, missed 7, active 0. -/
theorem all_bonded_matched_series_witness :
    (∃ s, s ∈ signingInfosOf scenarioA ∧ bob.ConsAddr = some s.Address ∧
      findSigningInfo s.Address (signingInfosOf scenarioA) = some s ∧
      validatorStep intEnv (signingInfosOf scenarioA) (validatorSetLengthOf scenarioA) 1 bob =
        decimalAndFlagSeries intEnv bob ++
          [⟨validatorsMissedBlocksGauge, validatorLabels bob,
              intEnv.ofInt s.MissedBlocksCounter⟩,
            ⟨validatorsRankGauge, validatorLabels bob, intEnv.ofInt (((1 : Nat) : Int) + 1)⟩,
            ⟨validatorsIsActiveGauge, validatorLabels bob,
              intEnv.ofInt (if ((1 : Nat) : Int) + 1 ≤ ((1 : Nat) : Int) then 1 else 0)⟩] ∧
      (([alice, bob].map validatorLabels).Nodup →
        gaugeValue (ValidatorsHandler intEnv stableSortSlice scenarioA) validatorsRankGauge
          (validatorLabels bob) = some (intEnv.ofInt (((1 : Nat) : Int) + 1)) ∧
        gaugeValue (ValidatorsHandler intEnv stableSortSlice scenarioA)
          validatorsMissedBlocksGauge (validatorLabels bob) =
          some (intEnv.ofInt s.MissedBlocksCounter) ∧
        gaugeValue (ValidatorsHandler intEnv stableSortSlice scenarioA)
          validatorsIsActiveGauge (validatorLabels bob) =
          some (intEnv.ofInt
            (if ((1 : Nat) : Int) + 1 ≤ ((1 : Nat) : Int) then 1 else 0)))) ∧
    (gaugeValue (ValidatorsHandler intEnv stableSortSlice scenarioA) validatorsRankGauge
        (validatorLabels alice) = some 1 ∧
      gaugeValue (ValidatorsHandler intEnv stableSortSlice scenarioA)
        validatorsMissedBlocksGauge (validatorLabels alice) = some 3 ∧
      gaugeValue (ValidatorsHandler intEnv stableSortSlice scenarioA)
        validatorsIsActiveGauge (validatorLabels alice) = some 1) ∧
    (gaugeValue (ValidatorsHandler intEnv stableSortSlice scenarioA) validatorsRankGauge
        (validatorLabels bob) = some 2 ∧
      gaugeValue (ValidatorsHandler intEnv stableSortSlice scenarioA)
        validatorsMissedBlocksGauge (validatorLabels bob) = some 7 ∧
      gaugeValue (ValidatorsHandler intEnv stableSortSlice scenarioA)
        validatorsIsActiveGauge (validatorLabels bob) = some 0) :=
  ⟨all_bonded_matched_series intEnv stableSortSlice scenarioA [alice, bob] 1 1 bob rfl
      (by decide) rfl (by decide) (by decide),
    by decide, by decide⟩

/-! ## C8: a failed parse omits only its own series -/

theorem filter_setIfParsed_gauge {F : Type} (parsed : Option F) (g₀ g : Gauge)
    (labels : List String) (val : F → F) :
    (setIfParsed parsed (fun x => (⟨g₀, labels, val x⟩ : Series F))).filter
        (fun e => decide (e.gauge = g)) =
      if g₀ = g then setIfParsed parsed (fun x => (⟨g₀, labels, val x⟩ : Series F)) else [] := by
  cases parsed <;> by_cases h : g₀ = g <;> simp [setIfParsed, h]

theorem filter_gauge_validatorStep_congr {F : Type} (env env' : Env F)
    (hof : env'.ofInt = env.ofInt) (hdiv : env'.div = env.div)
    (hden : env'.Denom = env.Denom) (hco : env'.DenomCoefficient = env.DenomCoefficient)
    (si : List ValidatorSigningInfo) (n i : Nat) (v : Validator) (g : Gauge)
    (h : guardingParse env' v g = guardingParse env v g) :
    (validatorStep env' si n i v).filter (fun e => decide (e.gauge = g)) =
      (validatorStep env si n i v).filter (fun e => decide (e.gauge = g)) := by
  obtain ⟨ofInt, pd, pi, div, den, co⟩ := env
  obtain ⟨ofInt', pd', pi', div', den', co'⟩ := env'
  simp only at hof hdiv hden hco
  subst hof hdiv hden hco
  unfold validatorStep
  rw [List.filter_append, List.filter_append]
  congr 1
  unfold decimalAndFlagSeries
  simp only [List.filter_append]
  cases g <;> simp only [guardingParse, Option.some.injEq] at h <;>
    simp [filter_setIfParsed_gauge _ _ _ _ (fun x => x),
      filter_setIfParsed_gauge _ _ _ _ (fun x => div' x co'), h]

theorem filter_gauge_validatorsLoop_congr {F : Type} (env env' : Env F)
    (hof : env'.ofInt = env.ofInt) (hdiv : env'.div = env.div)
    (hden : env'.Denom = env.Denom) (hco : env'.DenomCoefficient = env.DenomCoefficient)
    (si : List ValidatorSigningInfo) (n : Nat) (g : Gauge) (vs : List Validator) :
    ∀ start, (∀ v ∈ vs, guardingParse env' v g = guardingParse env v g) →
      (validatorsLoop env' si n start vs).filter (fun e => decide (e.gauge = g)) =
        (validatorsLoop env si n start vs).filter (fun e => decide (e.gauge = g)) := by
  induction vs with
  | nil => intro start _; rfl
  | cons w rest ih =>
    intro start h
    simp only [validatorsLoop, List.filter_append]
    rw [filter_gauge_validatorStep_congr env env' hof hdiv hden hco si n start w g
        (h w (by simp)),
      ih (start + 1) (fun v hv => h v (by simp [hv]))]

theorem ibc_tasks_congr {F : Type} (env env' : Env F) (hof : env'.ofInt = env.ofInt)
    (r : FetchResults) :
    channelsTask env' r ++ connectionsTask env' r ++ clientsTask env' r =
      channelsTask env r ++ connectionsTask env r ++ clientsTask env r := by
  have hclients : ∀ cs, clientSeries env' r.clientStatus cs =
      clientSeries env r.clientStatus cs := by
    intro cs
    induction cs with
    | nil => rfl
    | cons c cs ih => simp only [clientSeries, ih, hof]
  simp only [channelsTask, connectionsTask, clientsTask, hof, hclients]

theorem gauge_ne_of_parse_failed {F : Type} (env : Env F) (si : List ValidatorSigningInfo)
    (n i : Nat) (v : Validator) (g : Gauge) (h : guardingParse env v g = some none)
    (e : Series F) (he : e ∈ validatorStep env si n i v) : e.gauge ≠ g := by
  intro hg
  rw [mem_validatorStep_iff, mem_decimalAndFlagSeries_iff] at he
  rcases he with he | ⟨s, _, he⟩
  · rcases he with ⟨x, hx, rfl⟩ | rfl | rfl | ⟨x, hx, rfl⟩ | ⟨x, hx, rfl⟩ | ⟨x, hx, rfl⟩
    all_goals (simp only at hg; subst hg; simp_all [guardingParse])
  · rw [mem_signingSeries_iff] at he
    rcases he with ⟨_, rfl⟩ | rfl | ⟨_, rfl⟩
    all_goals (simp only at hg; subst hg; simp [guardingParse] at h)

/-- C8: let `env` and `env'` differ at most in their parse functions (`env` being
the run in which a parse fails, `env'` the run in which it succeeds). A gauge
whose guarding parse fails for a validator is not written in that validator's
iteration, and holds no value for the validator's labels; in every iteration,
every gauge whose guarding parse gives the same result in both runs (in
particular status, jailed, missed blocks, rank and active, which have none) is
written identically; so is a gauge over the whole request when that holds for
all validators; and the loop is never cut short: status and jailed are written
for every validator. -/
theorem parse_failure_omits_only_its_series {F : Type} (env env' : Env F) (S : SortSlice)
    (r : FetchResults) (hof : env'.ofInt = env.ofInt) (hdiv : env'.div = env.div)
    (hden : env'.Denom = env.Denom) (hco : env'.DenomCoefficient = env.DenomCoefficient) :
    (∀ (i : Nat) (v : Validator) (g : Gauge), (sortedValidators S r)[i]? = some v →
      guardingParse env v g = some none →
      (∀ e ∈ validatorStep env (signingInfosOf r) (validatorSetLengthOf r) i v,
        e.gauge ≠ g) ∧
      (((sortedValidators S r).map validatorLabels).Nodup →
        ∀ labels, labels.take 2 = validatorLabels v →
          gaugeValue (ValidatorsHandler env S r) g labels = none)) ∧
    (∀ (i : Nat) (v : Validator) (g : Gauge),
      guardingParse env' v g = guardingParse env v g →
      (validatorStep env' (signingInfosOf r) (validatorSetLengthOf r) i v).filter
          (fun e => decide (e.gauge = g)) =
        (validatorStep env (signingInfosOf r) (validatorSetLengthOf r) i v).filter
          (fun e => decide (e.gauge = g))) ∧
    (∀ g : Gauge,
      (∀ v ∈ sortedValidators S r, guardingParse env' v g = guardingParse env v g) →
      (ValidatorsHandler env' S r).filter (fun e => decide (e.gauge = g)) =
        (ValidatorsHandler env S r).filter (fun e => decide (e.gauge = g))) ∧
    (∀ v ∈ sortedValidators S r,
      (⟨validatorsStatusGauge, validatorLabels v, env.ofInt v.Status⟩ : Series F) ∈
        ValidatorsHandler env S r ∧
      (⟨validatorsJailedGauge, validatorLabels v,
          env.ofInt (if v.Jailed then 1 else 0)⟩ : Series F) ∈
        ValidatorsHandler env S r) := by
  refine ⟨?_, ?_, ?_, ?_⟩
  · intro i v g hi hfail
    have habsent := gauge_ne_of_parse_failed env (signingInfosOf r) (validatorSetLengthOf r)
      i v g hfail
    refine ⟨habsent, ?_⟩
    intro hnd labels hl
    have hg : g ≠ ibcChannelsGauge ∧ g ≠ ibcConnectionsGauge ∧ g ≠ ibcClientsGauge := by
      refine ⟨?_, ?_, ?_⟩ <;> rintro rfl <;> simp [guardingParse] at hfail
    rw [gaugeValue_handler env S r g labels i v hg hnd hi hl]
    unfold gaugeValue
    have hnil : (validatorStep env (signingInfosOf r) (validatorSetLengthOf r) i v).filter
        (fun e => decide (e.gauge = g ∧ e.labels = labels)) = [] := by
      rw [List.filter_eq_nil_iff]
      intro e he
      simp only [decide_eq_true_eq, not_and]
      intro hge
      exact absurd hge (habsent e he)
    rw [hnil]
    rfl
  · intro i v g h
    exact filter_gauge_validatorStep_congr env env' hof hdiv hden hco _ _ i v g h
  · intro g h
    unfold ValidatorsHandler
    rw [ibc_tasks_congr env env' hof r]
    simp only [List.filter_append]
    rw [filter_gauge_validatorsLoop_congr env env' hof hdiv hden hco _ _ g _ 0 h]
  · intro v hv
    obtain ⟨i, hi⟩ := List.mem_iff_getElem?.1 hv
    constructor
    · rw [mem_handler_validator_gauge env S r _ (by simp)]
      exact ⟨i, v, hi, (mem_validatorStep_iff env _ _ i v _).2
        (Or.inl ((mem_decimalAndFlagSeries_iff env v _).2 (Or.inr (Or.inl rfl))))⟩
    · rw [mem_handler_validator_gauge env S r _ (by simp)]
      exact ⟨i, v, hi, (mem_validatorStep_iff env _ _ i v _).2
        (Or.inl ((mem_decimalAndFlagSeries_iff env v _).2 (Or.inr (Or.inr (Or.inl rfl)))))⟩

/-- C8, witness: scenario A run with an environment in which no `sdk.Dec`
parses, against the run in which every parse succeeds: the commission gauge holds
nothing for `alice` in the first and 5 in the second, and the rank and tokens
gauges are written identically in both. -/
theorem parse_failure_omits_only_its_series_witness :
    (intEnv.ofInt = failingDecEnv.ofInt ∧ intEnv.div = failingDecEnv.div ∧
      intEnv.Denom = failingDecEnv.Denom ∧
      intEnv.DenomCoefficient = failingDecEnv.DenomCoefficient) ∧
    guardingParse failingDecEnv alice validatorsCommissionGauge = some none ∧
    gaugeValue (ValidatorsHandler failingDecEnv stableSortSlice scenarioA)
      validatorsCommissionGauge (validatorLabels alice) = none ∧
    gaugeValue (ValidatorsHandler intEnv stableSortSlice scenarioA)
      validatorsCommissionGauge (validatorLabels alice) = some 5 ∧
    (ValidatorsHandler intEnv stableSortSlice scenarioA).filter
        (fun e => decide (e.gauge = validatorsRankGauge)) =
      (ValidatorsHandler failingDecEnv stableSortSlice scenarioA).filter
        (fun e => decide (e.gauge = validatorsRankGauge)) ∧
    (ValidatorsHandler intEnv stableSortSlice scenarioA).filter
        (fun e => decide (e.gauge = validatorsTokensGauge)) =
      (ValidatorsHandler failingDecEnv stableSortSlice scenarioA).filter
        (fun e => decide (e.gauge = validatorsTokensGauge)) :=
  ⟨⟨rfl, rfl, rfl, rfl⟩, rfl,
    ((parse_failure_omits_only_its_series failingDecEnv intEnv stableSortSlice scenarioA
      rfl rfl rfl rfl).1 0 alice validatorsCommissionGauge (by decide) rfl).2 (by decide)
      (validatorLabels alice) (by decide),
    by decide,
    (parse_failure_omits_only_its_series failingDecEnv intEnv stableSortSlice scenarioA
      rfl rfl rfl rfl).2.2.1 validatorsRankGauge (by decide),
    (parse_failure_omits_only_its_series failingDecEnv intEnv stableSortSlice scenarioA
      rfl rfl rfl rfl).2.2.1 validatorsTokensGauge (by decide)⟩

/-! ## C10: what an iteration writes, by signing-info match -/

/-- C10: in the iteration for the validator `v` at 0-based sorted position `i`,
the status and jailed series, and each decimal series whose parse succeeds, are
written whatever the signing infos are; a rank series is written exactly when
some signing info has the address `pubKeyString v`, and it is the one with value
`i + 1`; an active series is written exactly when such a signing info exists and
`validatorSetLength` is nonzero; every write of the iteration is a write of the
handler; and when the signing-info call failed or returned no record, the handler
writes no rank, active or missed-blocks series for any validator. -/
theorem step_series_by_signing_match {F : Type} (env : Env F) (S : SortSlice)
    (r : FetchResults) (i : Nat) (v : Validator)
    (hi : (sortedValidators S r)[i]? = some v) :
    ((⟨validatorsStatusGauge, validatorLabels v, env.ofInt v.Status⟩ : Series F) ∈
        validatorStep env (signingInfosOf r) (validatorSetLengthOf r) i v ∧
      (⟨validatorsJailedGauge, validatorLabels v,
          env.ofInt (if v.Jailed then 1 else 0)⟩ : Series F) ∈
        validatorStep env (signingInfosOf r) (validatorSetLengthOf r) i v) ∧
    ((∀ x, env.parseDec v.Rate = some x →
        (⟨validatorsCommissionGauge, validatorLabels v, x⟩ : Series F) ∈
          validatorStep env (signingInfosOf r) (validatorSetLengthOf r) i v) ∧
      (∀ x, env.parseInt v.Tokens = some x →
        (⟨validatorsTokensGauge, validatorLabels v ++ [env.Denom],
            env.div x env.DenomCoefficient⟩ : Series F) ∈
          validatorStep env (signingInfosOf r) (validatorSetLengthOf r) i v) ∧
      (∀ x, env.parseDec v.DelegatorShares = some x →
        (⟨validatorsDelegatorSharesGauge, validatorLabels v ++ [env.Denom],
            env.div x env.DenomCoefficient⟩ : Series F) ∈
          validatorStep env (signingInfosOf r) (validatorSetLengthOf r) i v) ∧
      (∀ x, env.parseInt v.MinSelfDelegation = some x →
        (⟨validatorsMinSelfDelegationGauge, validatorLabels v ++ [env.Denom],
            env.div x env.DenomCoefficient⟩ : Series F) ∈
          validatorStep env (signingInfosOf r) (validatorSetLengthOf r) i v)) ∧
    (∀ e : Series F, e.gauge = validatorsRankGauge →
      (e ∈ validatorStep env (signingInfosOf r) (validatorSetLengthOf r) i v ↔
        (∃ s ∈ signingInfosOf r, s.Address = pubKeyString v) ∧
          e = ⟨validatorsRankGauge, validatorLabels v, env.ofInt ((i : Int) + 1)⟩)) ∧
    (∀ e : Series F, e.gauge = validatorsIsActiveGauge →
      (e ∈ validatorStep env (signingInfosOf r) (validatorSetLengthOf r) i v ↔
        (∃ s ∈ signingInfosOf r, s.Address = pubKeyString v) ∧
          validatorSetLengthOf r ≠ 0 ∧
          e = ⟨validatorsIsActiveGauge, validatorLabels v,
            env.ofInt (if (i : Int) + 1 ≤ (validatorSetLengthOf r : Int) then 1 else 0)⟩)) ∧
    (∀ e ∈ validatorStep env (signingInfosOf r) (validatorSetLengthOf r) i v,
      e ∈ ValidatorsHandler env S r) ∧
    ((r.signingInfos = none ∨ r.signingInfos = some []) →
      ∀ e ∈ ValidatorsHandler env S r,
        e.gauge ≠ validatorsRankGauge ∧ e.gauge ≠ validatorsIsActiveGauge ∧
          e.gauge ≠ validatorsMissedBlocksGauge) := by
  have hdec : ∀ e : Series F, e ∈ decimalAndFlagSeries env v →
      e ∈ validatorStep env (signingInfosOf r) (validatorSetLengthOf r) i v :=
    fun e he => (mem_validatorStep_iff env _ _ i v e).2 (Or.inl he)
  have hsign : ∀ e : Series F,
      e.gauge = validatorsMissedBlocksGauge ∨ e.gauge = validatorsRankGauge ∨
        e.gauge = validatorsIsActiveGauge →
      (e ∈ validatorStep env (signingInfosOf r) (validatorSetLengthOf r) i v ↔
        ∃ s, findSigningInfo (pubKeyString v) (signingInfosOf r) = some s ∧
          e ∈ signingSeries env (validatorSetLengthOf r) i v s) := by
    intro e hg
    rw [mem_validatorStep_iff]
    constructor
    · rintro (he | he)
      · rw [mem_decimalAndFlagSeries_iff] at he
        rcases he with ⟨_, _, rfl⟩ | rfl | rfl | ⟨_, _, rfl⟩ | ⟨_, _, rfl⟩ | ⟨_, _, rfl⟩ <;>
          simp at hg
      · exact he
    · exact fun he => Or.inr he
  refine ⟨⟨?_, ?_⟩, ⟨?_, ?_, ?_, ?_⟩, ?_, ?_, ?_, ?_⟩
  · exact hdec _ ((mem_decimalAndFlagSeries_iff env v _).2 (Or.inr (Or.inl rfl)))
  · exact hdec _ ((mem_decimalAndFlagSeries_iff env v _).2 (Or.inr (Or.inr (Or.inl rfl))))
  · intro x hx
    exact hdec _ ((mem_decimalAndFlagSeries_iff env v _).2 (Or.inl ⟨x, hx, rfl⟩))
  · intro x hx
    exact hdec _ ((mem_decimalAndFlagSeries_iff env v _).2
      (Or.inr (Or.inr (Or.inr (Or.inl ⟨x, hx, rfl⟩)))))
  · intro x hx
    exact hdec _ ((mem_decimalAndFlagSeries_iff env v _).2
      (Or.inr (Or.inr (Or.inr (Or.inr (Or.inl ⟨x, hx, rfl⟩))))))
  · intro x hx
    exact hdec _ ((mem_decimalAndFlagSeries_iff env v _).2
      (Or.inr (Or.inr (Or.inr (Or.inr (Or.inr ⟨x, hx, rfl⟩))))))
  · intro e hg
    rw [hsign e (Or.inr (Or.inl hg)), ← findSigningInfo_isSome_iff]
    constructor
    · rintro ⟨s, hs, he⟩
      rw [mem_signingSeries_iff] at he
      refine ⟨by simp [hs], ?_⟩
      rcases he with ⟨_, rfl⟩ | rfl | ⟨_, rfl⟩
      · simp at hg
      · rfl
      · simp at hg
    · rintro ⟨hsome, rfl⟩
      obtain ⟨s, hs⟩ := Option.isSome_iff_exists.1 hsome
      exact ⟨s, hs, (mem_signingSeries_iff env _ i v s _).2 (Or.inr (Or.inl rfl))⟩
  · intro e hg
    rw [hsign e (Or.inr (Or.inr hg)), ← findSigningInfo_isSome_iff]
    constructor
    · rintro ⟨s, hs, he⟩
      rw [mem_signingSeries_iff] at he
      refine ⟨by simp [hs], ?_⟩
      rcases he with ⟨_, rfl⟩ | rfl | ⟨hn, rfl⟩
      · simp at hg
      · simp at hg
      · exact ⟨hn, rfl⟩
    · rintro ⟨hsome, hn, rfl⟩
      obtain ⟨s, hs⟩ := Option.isSome_iff_exists.1 hsome
      exact ⟨s, hs, (mem_signingSeries_iff env _ i v s _).2 (Or.inr (Or.inr ⟨hn, rfl⟩))⟩
  · intro e he
    have hg : e.gauge ≠ ibcChannelsGauge ∧ e.gauge ≠ ibcConnectionsGauge ∧
        e.gauge ≠ ibcClientsGauge := by
      rw [mem_validatorStep_iff, mem_decimalAndFlagSeries_iff] at he
      rcases he with he | ⟨s, _, he⟩
      · rcases he with ⟨_, _, rfl⟩ | rfl | rfl | ⟨_, _, rfl⟩ | ⟨_, _, rfl⟩ | ⟨_, _, rfl⟩ <;>
          simp
      · rw [mem_signingSeries_iff] at he
        rcases he with ⟨_, rfl⟩ | rfl | ⟨_, rfl⟩ <;> simp
    exact (mem_handler_validator_gauge env S r e hg).2 ⟨i, v, hi, he⟩
  · intro hempty e he
    have hnil : signingInfosOf r = [] := by
      rcases hempty with h | h <;> simp [signingInfosOf, h]
    by_cases hg : e.gauge = validatorsMissedBlocksGauge ∨ e.gauge = validatorsRankGauge ∨
        e.gauge = validatorsIsActiveGauge
    · exfalso
      have hg' : e.gauge ≠ ibcChannelsGauge ∧ e.gauge ≠ ibcConnectionsGauge ∧
          e.gauge ≠ ibcClientsGauge := by
        rcases hg with h | h | h <;> simp [h]
      obtain ⟨j, w, _, hw⟩ := (mem_handler_validator_gauge env S r e hg').1 he
      rw [mem_validatorStep_iff, mem_decimalAndFlagSeries_iff, hnil] at hw
      rcases hw with hw | ⟨s, hs, _⟩
      · rcases hw with ⟨_, _, rfl⟩ | rfl | rfl | ⟨_, _, rfl⟩ | ⟨_, _, rfl⟩ | ⟨_, _, rfl⟩ <;>
          simp at hg
      · simp [findSigningInfo] at hs
    · exact ⟨fun h => hg (Or.inr (Or.inl h)), fun h => hg (Or.inr (Or.inr h)),
        fun h => hg (Or.inl h)⟩

/-- C10, witness: scenario B, `bob` at sorted position 2 without a signing
info: his status series is a write of the handler and no rank series is written
in his iteration. -/
theorem step_series_by_signing_match_witness :
    (sortedValidators stableSortSlice scenarioB)[1]? = some bob ∧
    (⟨validatorsStatusGauge, validatorLabels bob, 3⟩ : Series Int) ∈
      ValidatorsHandler intEnv stableSortSlice scenarioB ∧
    ((⟨validatorsRankGauge, validatorLabels bob, 2⟩ : Series Int) ∈
        validatorStep intEnv (signingInfosOf scenarioB) (validatorSetLengthOf scenarioB) 1 bob ↔
      (∃ s ∈ signingInfosOf scenarioB, s.Address = pubKeyString bob) ∧
        (⟨validatorsRankGauge, validatorLabels bob, 2⟩ : Series Int) =
          ⟨validatorsRankGauge, validatorLabels bob, intEnv.ofInt (((1 : Nat) : Int) + 1)⟩) ∧
    (⟨validatorsRankGauge, validatorLabels bob, 2⟩ : Series Int) ∉
      validatorStep intEnv (signingInfosOf scenarioB) (validatorSetLengthOf scenarioB) 1 bob :=
  ⟨by decide,
    (step_series_by_signing_match intEnv stableSortSlice scenarioB 1 bob
      (by decide)).2.2.2.2.1 _
      (step_series_by_signing_match intEnv stableSortSlice scenarioB 1 bob (by decide)).1.1,
    (step_series_by_signing_match intEnv stableSortSlice scenarioB 1 bob
      (by decide)).2.2.1 _ rfl,
    by decide⟩

end CosmosExporter
